import Mathlib

/-!
Shallow embedding of `src/communicator.go` (package `main` of the
`jirasearch` repository) and proofs about it.

Modelling conventions:
- Go's dynamic JSON values (`interface{}` after `encoding/json.Unmarshal`)
  are the inductive type `Json` below.  JSON objects
  (`map[string]interface{}`) are association lists `List (String × Json)`
  with Go map read/write/delete semantics (`mapLookup`, `mapInsert`,
  `mapErase`); `encoding/json` produces unique keys, and `mapInsert`
  overwrites an existing key like a Go map assignment does.
- A forced Go type assertion (`v.(T)`) panics when it fails; functions
  that can panic are embedded with result type `Option _`, where `none`
  models the panic.  The two-value form (`v, ok := x.(T)`) never panics
  and is embedded by matching.
- `strings.ToLower` is modelled by `goToLower` (character-wise ASCII case
  fold); the two agree on the ASCII strings this code compares (Go's
  version also folds non-ASCII letters).
- JSON numbers unmarshal to Go `float64`; the constructor `Json.num`
  carries an `Int` and is rendered with `toString`, a simplification of
  `fmt.Sprint` on `float64` that no theorem below depends on.
-/

/-- Dynamic JSON value, the shallow embedding of Go's `interface{}`
holding an unmarshalled JSON value. -/
inductive Json where
  | null : Json
  | bool : Bool → Json
  | num : Int → Json
  | str : String → Json
  | arr : List Json → Json
  | obj : List (String × Json) → Json

/-- Go map read `m[k]` with the two-value form: `some v` when present. -/
def mapLookup {α : Type} : List (String × α) → String → Option α
  | [], _ => none
  | (k, v) :: rest, key => if k = key then some v else mapLookup rest key

/-- Go map assignment `m[k] = v`: overwrite the existing entry or add one. -/
def mapInsert {α : Type} : List (String × α) → String → α → List (String × α)
  | [], k, v => [(k, v)]
  | (k', v') :: rest, k, v =>
    if k' = k then (k, v) :: rest else (k', v') :: mapInsert rest k v

/-- Go `delete(m, k)`. -/
def mapErase {α : Type} : List (String × α) → String → List (String × α)
  | [], _ => []
  | (k', v') :: rest, k =>
    if k' = k then mapErase rest k else (k', v') :: mapErase rest k

/-- Embeds `strings.Replace(s, ",", "", -1)` from `GetValueFromField`. -/
def stripCommas (s : String) : String :=
  String.mk (s.data.filter (fun c => c != ','))

/-- Embeds `strings.ToLower`, character by character (ASCII case fold;
see the module comment). -/
def goToLower (s : String) : String :=
  String.mk (s.data.map Char.toLower)

/-- Embeds `GetNestedMapKeyName` (communicator.go lines 261-275). -/
def GetNestedMapKeyName (fieldName : String) : String :=
  if goToLower fieldName = "assignee" ∨ goToLower fieldName = "reporter" then
    "displayName"
  else if goToLower fieldName = "issuetype" ∨ goToLower fieldName = "status" ∨
      goToLower fieldName = "priority" then
    "name"
  else if goToLower fieldName = "timetracking" then
    "originalEstimate"
  else
    "value"

/-- Calendar date produced by parsing the Jira timestamp; Go's
`time.Time` restricted to the components that `Format("02/Jan/06")`
renders (the parsed zone offset is kept in the time's location, so the
rendered day/month/year are the ones written in the input). -/
structure GoDate where
  year : Nat
  month : Nat
  day : Nat
deriving DecidableEq

/-- Go's zero `time.Time`: January 1, year 1. -/
def zeroDate : GoDate := ⟨1, 1, 1⟩

def isLeapYear (y : Nat) : Bool :=
  y % 4 = 0 && (y % 100 ≠ 0 || y % 400 = 0)

def daysInMonth (year month : Nat) : Nat :=
  if month = 2 then (if isLeapYear year then 29 else 28)
  else if month = 4 ∨ month = 6 ∨ month = 9 ∨ month = 11 then 30
  else 31

def monthName : Nat → String
  | 1 => "Jan"
  | 2 => "Feb"
  | 3 => "Mar"
  | 4 => "Apr"
  | 5 => "May"
  | 6 => "Jun"
  | 7 => "Jul"
  | 8 => "Aug"
  | 9 => "Sep"
  | 10 => "Oct"
  | 11 => "Nov"
  | 12 => "Dec"
  | _ => ""

def pad2 (n : Nat) : String :=
  if n < 10 then "0" ++ toString n else toString n

/-- Embeds `dateVal.Format("02/Jan/06")`: zero-padded day, abbreviated
month name, zero-padded year modulo 100. -/
def formatDDMonYY (d : GoDate) : String :=
  pad2 d.day ++ "/" ++ monthName d.month ++ "/" ++ pad2 (d.year % 100)

def digitVal (c : Char) : Option Nat :=
  if c.isDigit then some (c.toNat - 48) else none

/-- Consume one expected literal character of the layout (Go errors when
the input byte differs from the layout byte). -/
def parseExact (c : Char) : List Char → Option (List Char)
  | c1 :: rest => if c1 = c then some rest else none
  | [] => none

/-- Embeds Go's `getnum(value, true)` for the two-digit directives
(`01`, `02`, `04`, `05`): exactly two digits. -/
def parse2dig : List Char → Option (Nat × List Char)
  | c1 :: c2 :: rest => do
    let d1 ← digitVal c1
    let d2 ← digitVal c2
    pure (d1 * 10 + d2, rest)
  | _ => none

/-- Embeds the four-digit year read of the `2006` directive. -/
def parse4dig : List Char → Option (Nat × List Char)
  | c1 :: c2 :: c3 :: c4 :: rest => do
    let d1 ← digitVal c1
    let d2 ← digitVal c2
    let d3 ← digitVal c3
    let d4 ← digitVal c4
    pure (((d1 * 10 + d2) * 10 + d3) * 10 + d4, rest)
  | _ => none

/-- Embeds Go's `getnum(value, false)` for the `15` hour directive: one
digit, or two when the second character is also a digit. -/
def parseHourNum : List Char → Option (Nat × List Char)
  | c1 :: c2 :: rest =>
    match digitVal c1, digitVal c2 with
    | some d1, some d2 => some (d1 * 10 + d2, rest)
    | some d1, none => some (d1, c2 :: rest)
    | none, _ => none
  | [c1] => (digitVal c1).map (fun d => (d, ([] : List Char)))
  | [] => none

def skipDigits : List Char → List Char
  | c :: rest => if c.isDigit then skipDigits rest else c :: rest
  | [] => []

/-- Embeds the `.999` directive of `time.Parse`: the fractional second
is optional; when the input continues with `.` or `,` followed by a
digit, the separator and every following digit are consumed, however
many (digits beyond the ninth are truncated, never an error).  The
nanosecond value does not affect the rendered date, so only the
remaining input matters. -/
def skipFracSecond (l : List Char) : List Char :=
  match l with
  | c1 :: c2 :: rest =>
    if (c1 = '.' ∨ c1 = ',') ∧ c2.isDigit then skipDigits rest else l
  | _ => l

/-- Embeds the `-0700` directive: a `+` or `-` sign followed by two
two-digit groups (Go applies no range check to the offset, and the
offset is kept in the time's location, so it does not change the
rendered date). -/
def parseNumTZ : List Char → Option (List Char)
  | sg :: o1 :: o2 :: o3 :: o4 :: rest =>
    if (sg = '+' ∨ sg = '-') ∧ o1.isDigit ∧ o2.isDigit ∧ o3.isDigit ∧
        o4.isDigit then some rest
    else none
  | _ => none

/-- Embeds `time.Parse("2006-01-02T15:04:05.999-0700", s)` for the date
components that `Format("02/Jan/06")` renders.  Following Go's parser
for this layout: a four-digit year; two-digit month, day, minute and
second; a one- or two-digit hour; an optional, variable-length
fractional second introduced by `.` or `,`; a sign and four offset
digits; no trailing input; with Go's range validation (month 1-12, day
within the month, hour below 24, minute and second below 60).  Returns
`none` exactly where Go's parse returns a non-nil error. -/
def parseJiraTime (s : String) : Option GoDate := do
  let (year, r1) ← parse4dig s.data
  let r2 ← parseExact '-' r1
  let (month, r3) ← parse2dig r2
  let r4 ← parseExact '-' r3
  let (day, r5) ← parse2dig r4
  let r6 ← parseExact 'T' r5
  let (hour, r7) ← parseHourNum r6
  let r8 ← parseExact ':' r7
  let (minute, r9) ← parse2dig r8
  let r10 ← parseExact ':' r9
  let (second, r11) ← parse2dig r10
  let r12 ← parseNumTZ (skipFracSecond r11)
  if r12 = ([] : List Char) ∧ 1 ≤ month ∧ month ≤ 12 ∧ 1 ≤ day ∧
      day ≤ daysInMonth year month ∧ hour ≤ 23 ∧ minute ≤ 59 ∧
      second ≤ 59 then
    some ⟨year, month, day⟩
  else none

/-- Embeds `GetValue` (communicator.go lines 242-258).  `none` models a
panic on a failed forced type assertion:
`arrayVal[0]` on an empty slice, `arrayVal[0].(map[string]interface{})`
on a non-object element, and the `.(string)` assertions on the nested
values (a missing `"value"` key yields a nil interface, so its
`.(string)` also panics).  In the object branch a missing nested key
takes the `ok = false` path and leaves `result` as the empty string. -/
def GetValue (val : Json) (fieldName : String) : Option String :=
  match val with
  | Json.arr xs =>
    match xs with
    | Json.obj m :: _ =>
      match mapLookup m "value" with
      | some (Json.str s) => some s
      | _ => none
    | _ :: _ => none
    | [] => none
  | Json.obj m =>
    match mapLookup m (GetNestedMapKeyName fieldName) with
    | some t =>
      match t with
      | Json.str s => some s
      | _ => none
    | none => some ""
  | Json.null => some ""
  | Json.str s => some s
  | Json.bool b => some (if b then "true" else "false")
  | Json.num n => some (toString n)

/-- Embeds `GetValueFromField` (communicator.go lines 224-239).  `none`
models a panic: the forced assertion `val.(map[string]interface{})` on a
non-object `"fields"` member, the forced `val.(string)` in the
`"created"` branch, or a panic propagated from `GetValue`.  In the
`"created"` branch the parse error is discarded (`dateVal, _ :=`), so a
failed parse formats the zero time. -/
def GetValueFromField (issue : List (String × Json)) (field : String) :
    Option String :=
  match mapLookup issue "fields" with
  | some v =>
    match v with
    | Json.obj fieldsMap =>
      match mapLookup fieldsMap field with
      | some val =>
        if goToLower field = "created" then
          match val with
          | Json.str s => some (formatDDMonYY ((parseJiraTime s).getD zeroDate))
          | _ => none
        else
          match GetValue val field with
          | some r => some (stripCommas r)
          | none => none
      | none => some "N/A"
    | _ => none
  | none => some "N/A"

/-- Embeds `IsBug` (communicator.go lines 195-197). -/
def IsBug (issueType : String) : Bool :=
  goToLower issueType == "bug" || goToLower issueType == "functional bug" ||
    goToLower issueType == "production issue"


/-- One field definition from the `/rest/api/2/field` response, holding
the three members `GetCustomFields` reads (`name`, `id`, `custom`). -/
structure FieldDef where
  name : String
  id : String
  custom : Bool

/-- Loop state of `GetCustomFields`: the `result` map under construction
and the `staticFields` side map of claimed standard names. -/
structure CatalogState where
  result : List (String × String)
  staticFields : List (String × String)

/-- One iteration of the loop in `GetCustomFields` (communicator.go lines
97-114).  Note that on the custom branch the duplicate check (line 99)
looks up `result[field["name"]]` with the name as received, while entries
are stored under the lower-cased name (line 103). -/
def processField (st : CatalogState) (f : FieldDef) : CatalogState :=
  if f.custom then
    match mapLookup st.result f.name with
    | some _ => st
    | none =>
      match mapLookup st.staticFields (goToLower f.name) with
      | some _ => st
      | none =>
        { st with result := mapInsert st.result (goToLower f.name) (goToLower f.id) }
  else
    match mapLookup st.result (goToLower f.name) with
    | some _ => { st with result := mapErase st.result (goToLower f.name) }
    | none =>
      { st with staticFields := mapInsert st.staticFields (goToLower f.name) (goToLower f.id) }

/-- Embeds `GetCustomFields` (communicator.go lines 86-117) given the
decoded field-definition list, returning the map sent on
`customFieldChannel`. -/
def GetCustomFields (fields : List FieldDef) : List (String × String) :=
  (List.foldl processField ⟨[], []⟩ fields).result

/-- Embeds the inner loop of `GetDeveloperNameFromLog` (communicator.go
lines 206-212): scan the entry's items in order; the first item whose
`toString` member is the string `"In Development"` stops the scan with
`some true`.  A non-object item panics (`item.(map[string]interface{})`
is forced), modelled by `none`; the `.(string)` assertion uses the
two-value form and never panics. -/
def findMatch : List Json → Option Bool
  | [] => some false
  | it :: rest =>
    match it with
    | Json.obj m =>
      match mapLookup m "toString" with
      | some (Json.str s) =>
        if s = "In Development" then some true else findMatch rest
      | _ => findMatch rest
    | _ => none

/-- Embeds `mapHistory["author"].(map[string]interface{})["displayName"].(string)`
(communicator.go line 209); both assertions are forced, so any shape
mismatch panics (`none`). -/
def entryAuthor (mh : List (String × Json)) : Option String :=
  match mapLookup mh "author" with
  | some (Json.obj am) =>
    match mapLookup am "displayName" with
    | some (Json.str s) => some s
    | _ => none
  | _ => none

/-- Embeds the outer loop of `GetDeveloperNameFromLog` (communicator.go
lines 203-217).  `developerName` starts empty and the outer loop breaks
only when it is non-empty, so a matching entry whose author display name
is empty does not stop the scan. -/
def devLoop : List Json → Option String
  | [] => some ""
  | h :: rest =>
    match h with
    | Json.obj mh =>
      match mapLookup mh "items" with
      | some (Json.arr items) =>
        match findMatch items with
        | some true =>
          match entryAuthor mh with
          | some a => if a = "" then devLoop rest else some a
          | none => none
        | some false => devLoop rest
        | none => none
      | _ => none
    | _ => none

/-- Embeds `GetDeveloperNameFromLog` (communicator.go lines 200-221);
the `changelog`/`histories` accesses are forced assertions. -/
def GetDeveloperNameFromLog (issue : List (String × Json)) : Option String :=
  match mapLookup issue "changelog" with
  | some (Json.obj cm) =>
    match mapLookup cm "histories" with
    | some (Json.arr hs) => devLoop hs
    | _ => none
  | _ => none

/-- Structured change-history item: the `toString` transition target when
the item carries one as a string. -/
structure HistoryItem where
  toTarget : Option String

/-- Structured change-history entry: the author's display name and the
entry's items in order. -/
structure HistoryEntry where
  authorName : String
  items : List HistoryItem

def encodeItem (it : HistoryItem) : Json :=
  match it.toTarget with
  | some s => Json.obj [("toString", Json.str s)]
  | none => Json.obj []

def encodeEntry (e : HistoryEntry) : Json :=
  Json.obj [("author", Json.obj [("displayName", Json.str e.authorName)]),
            ("items", Json.arr (e.items.map encodeItem))]

/-- Issue JSON carrying exactly the given change history, as
`GetDeveloperNameFromLog` reads it. -/
def encodeChangeLog (l : List HistoryEntry) : List (String × Json) :=
  [("changelog", Json.obj [("histories", Json.arr (l.map encodeEntry))])]

def itemMatches (it : HistoryItem) : Bool :=
  it.toTarget == some "In Development"

/-- Claim C6 as the spec words it: the author display name of the first
entry, in given order, containing an item whose `toString` target equals
`"In Development"`; empty string when there is none. -/
def firstMatchAuthorSpec : List HistoryEntry → String
  | [] => ""
  | e :: rest =>
    if e.items.any itemMatches then e.authorName else firstMatchAuthorSpec rest

/-- Amended developer-of-record property: the author display name of the
first entry that both contains a matching item and has a non-empty
author display name; empty string when there is none. -/
def firstMatchNonEmptyAuthor : List HistoryEntry → String
  | [] => ""
  | e :: rest =>
    if e.items.any itemMatches then
      (if e.authorName = "" then firstMatchNonEmptyAuthor rest else e.authorName)
    else firstMatchNonEmptyAuthor rest

/-- Output record for one sub-task (structs.go is not under src/, but the
four members and their order are fixed by the composite literal on
communicator.go line 178). -/
structure SubTask where
  Type' : String
  Name : String
  AssigneeName : String
  TotalHours : String

/-- Output record for one issue, as populated by `SearchIssues` and
`GetSubTasksForIssue` (`Data`, `Fields`, `SubTasks`, `AssigneeName`). -/
structure JiraIssue where
  Data : List (String × Json)
  Fields : List String
  SubTasks : List SubTask
  AssigneeName : String

/-- Remote environment: the decoded body `GetIssue` obtains for a given
issue id and `includeChangeLog` flag (transport and `json.Unmarshal` are
external; a fetch that reaches the caller is this value). -/
def FetchEnv : Type := String → Bool → List (String × Json)

/-- Embeds the body of the sub-task loop (communicator.go lines 173-178):
fetch the sub-task without change history and extract the four fields
via `GetValueFromField`; a panic in any extraction is `none`. -/
def extractSubTask (st : List (String × Json)) : Option SubTask :=
  match GetValueFromField st "assignee", GetValueFromField st "issuetype",
      GetValueFromField st "summary", GetValueFromField st "timetracking" with
  | some assignee, some issueType, some name, some totalHours =>
    some ⟨issueType, name, assignee, totalHours⟩
  | _, _, _, _ => none

/-- Embeds the loop over `subTasks` (communicator.go lines 171-181),
returning the accumulated `SubTask` list and the number of
`*totalRestCalls++` increments the loop performs (one per sub-task).
Each element must be an object with a string `"id"` (forced
assertions). -/
def subTaskLoop (env : FetchEnv) : List Json → Option (List SubTask × Nat)
  | [] => some ([], 0)
  | st :: rest =>
    match st with
    | Json.obj m =>
      match mapLookup m "id" with
      | some (Json.str sid) =>
        match extractSubTask (env sid false) with
        | some s =>
          match subTaskLoop env rest with
          | some (ss, k) => some (s :: ss, k + 1)
          | none => none
        | none => none
      | _ => none
    | _ => none

/-- Embeds `GetSubTasksForIssue` (communicator.go lines 163-192) over a
fetch environment, returning the issue sent on `finalIssueChannel`
together with the total number of `*totalRestCalls++` increments of the
call; `none` models a panic. -/
def GetSubTasksForIssue (env : FetchEnv) (issue : JiraIssue)
    (includeChangeLog : Bool) : Option (JiraIssue × Nat) :=
  match mapLookup issue.Data "id" with
  | some (Json.str issueId) =>
    match mapLookup (env issueId includeChangeLog) "fields" with
    | some (Json.obj fieldsMap) =>
      match mapLookup fieldsMap "subtasks" with
      | some (Json.arr subTasks) =>
        match subTaskLoop env subTasks with
        | some (result, k) =>
          match GetValueFromField (env issueId includeChangeLog) "issuetype" with
          | some parentIssueType =>
            if IsBug parentIssueType then
              match GetDeveloperNameFromLog (env issueId includeChangeLog) with
              | some dev =>
                some ({ issue with SubTasks := result, AssigneeName := dev }, 1 + k)
              | none => none
            else some ({ issue with SubTasks := result }, 1 + k)
          | none => none
        | none => none
      | _ => none
    | _ => none
  | _ => none

/-- Parent fetch of `GetSubTasksForIssue` (communicator.go lines
165-167): the body obtained for `issue.Data["id"].(string)`. -/
def parentOf (env : FetchEnv) (issue : JiraIssue) (includeChangeLog : Bool) :
    Option (List (String × Json)) :=
  match mapLookup issue.Data "id" with
  | some (Json.str issueId) => some (env issueId includeChangeLog)
  | _ => none

/-- Shapes on which `GetValueFromField` meets no failing forced type
assertion: the `"fields"` member, when present, is an object, and the
requested value, when present, is a string for `"created"`, an array
whose first element is an object with a string `"value"` member, an
object whose selected nested key is absent or string-valued, or a
scalar/null.  `shapeOKVal` is the condition on the value handed to
`GetValue`: the forced assertions of its array branch succeed and the
object branch's nested value, when present, is a string. -/
def shapeOKVal (v : Json) (field : String) : Bool :=
  match v with
  | Json.arr xs =>
    match xs with
    | Json.obj m :: _ =>
      match mapLookup m "value" with
      | some (Json.str _) => true
      | _ => false
    | _ => false
  | Json.obj m =>
    match mapLookup m (GetNestedMapKeyName field) with
    | none => true
    | some (Json.str _) => true
    | some _ => false
  | _ => true

def shapeOK (issue : List (String × Json)) (field : String) : Bool :=
  match mapLookup issue "fields" with
  | none => true
  | some (Json.obj fieldsMap) =>
    match mapLookup fieldsMap field with
    | none => true
    | some v =>
      if goToLower field = "created" then
        match v with
        | Json.str _ => true
        | _ => false
      else shapeOKVal v field
  | some _ => false

/-- Change history used as the counterexample input: the first matching
entry's author display name is empty, the second one's is `"Alice"`. -/
def exHist : List HistoryEntry :=
  [⟨"", [⟨some "In Development"⟩]⟩,
   ⟨"Alice", [⟨some "In Development"⟩]⟩]

/-- Concrete sub-task body used by the aggregator witnesses. -/
def subW : List (String × Json) :=
  [("fields", Json.obj
    [("assignee", Json.obj [("displayName", Json.str "Bob")]),
     ("issuetype", Json.obj [("name", Json.str "Sub-task")]),
     ("summary", Json.str "Fix the thing"),
     ("timetracking", Json.obj [("originalEstimate", Json.str "2h")])])]

/-- Concrete parent body used by the aggregator witnesses: one sub-task,
issue type `Bug`, and a change history crediting `Alice`. -/
def parentW : List (String × Json) :=
  [("fields", Json.obj
     [("subtasks", Json.arr [Json.obj [("id", Json.str "2")]]),
      ("issuetype", Json.obj [("name", Json.str "Bug")])]),
   ("changelog", Json.obj [("histories", Json.arr
     [Json.obj [("author", Json.obj [("displayName", Json.str "Alice")]),
                ("items", Json.arr
                  [Json.obj [("toString", Json.str "In Development")]])]])])]

/-- Concrete fetch environment serving `parentW` for id `"1"` and `subW`
for id `"2"`. -/
def envW : FetchEnv := fun issueId _ =>
  if issueId = "1" then parentW else if issueId = "2" then subW else []

/-- Concrete input issue for the aggregator witnesses. -/
def issueW : JiraIssue := ⟨[("id", Json.str "1")], ["summary"], [], "Carol"⟩

/-- Output the aggregator produces for `issueW` under `envW`. -/
def outW : JiraIssue :=
  ⟨[("id", Json.str "1")], ["summary"],
   [⟨"Sub-task", "Fix the thing", "Bob", "2h"⟩], "Alice"⟩


theorem mapLookup_mapErase_self {α : Type} (m : List (String × α)) (k : String) :
    mapLookup (mapErase m k) k = none := by
  induction m with
  | nil => rfl
  | cons p rest ih =>
    obtain ⟨k', v'⟩ := p
    by_cases hk : k' = k
    · simp [mapErase, hk, ih]
    · simp [mapErase, mapLookup, hk, ih]

theorem mapLookup_mapErase_ne {α : Type} (m : List (String × α)) (k k' : String)
    (h : k' ≠ k) : mapLookup (mapErase m k) k' = mapLookup m k' := by
  have hne : ¬ k = k' := fun e => h e.symm
  induction m with
  | nil => rfl
  | cons p rest ih =>
    obtain ⟨k₀, v₀⟩ := p
    by_cases hk : k₀ = k
    · subst hk
      simp [mapErase, mapLookup, hne, ih]
    · simp [mapErase, mapLookup, hk, ih]

theorem mapLookup_mapInsert_ne {α : Type} (m : List (String × α)) (k k' : String)
    (v : α) (h : k' ≠ k) : mapLookup (mapInsert m k v) k' = mapLookup m k' := by
  have hne : ¬ k = k' := fun e => h e.symm
  induction m with
  | nil => simp [mapInsert, mapLookup, hne]
  | cons p rest ih =>
    obtain ⟨k₀, v₀⟩ := p
    by_cases hk : k₀ = k
    · subst hk
      simp [mapInsert, mapLookup, hne]
    · simp [mapInsert, mapLookup, hk, ih]

theorem processField_standard_clears (st : CatalogState) (f : FieldDef)
    (h : f.custom = false) :
    mapLookup (processField st f).result (goToLower f.name) = none := by
  unfold processField
  rw [h]
  simp only [Bool.false_eq_true, if_false]
  split
  · exact mapLookup_mapErase_self st.result (goToLower f.name)
  · next heq => exact heq

theorem processField_keeps_none (st : CatalogState) (f : FieldDef) (L : String)
    (hf : f.custom = true → goToLower f.name ≠ L)
    (h : mapLookup st.result L = none) :
    mapLookup (processField st f).result L = none := by
  unfold processField
  by_cases hc : f.custom = true
  · rw [hc]
    simp only [if_true]
    split
    · exact h
    · split
      · exact h
      · exact (mapLookup_mapInsert_ne st.result (goToLower f.name) L
          (goToLower f.id) (Ne.symm (hf hc))).trans h
  · rw [Bool.not_eq_true] at hc
    rw [hc]
    simp only [Bool.false_eq_true, if_false]
    split
    · by_cases hL : goToLower f.name = L
      · rw [hL]
        exact mapLookup_mapErase_self st.result L
      · exact (mapLookup_mapErase_ne st.result (goToLower f.name) L
          (Ne.symm hL)).trans h
    · exact h

theorem foldl_processField_keeps_none (post : List FieldDef) (st : CatalogState)
    (L : String) (hpost : ∀ f ∈ post, f.custom = true → goToLower f.name ≠ L)
    (h : mapLookup st.result L = none) :
    mapLookup (List.foldl processField st post).result L = none := by
  induction post generalizing st with
  | nil => exact h
  | cons f rest ih =>
    rw [List.foldl_cons]
    exact ih (processField st f)
      (fun g hg => hpost g (List.mem_cons_of_mem f hg))
      (processField_keeps_none st f L (hpost f (List.mem_cons_self f rest)) h)

/-- C1 (amended): in the field catalog resolver, once a standard field
with a given lower-cased name has been processed, and no custom field
with that lower-cased name occurs later in the sequence, the resolved
catalog has no entry for that name at all — in particular none mapping
it to any custom field's id.  (The unamended claim fails because a
standard field that removes a custom entry does not record the name in
`staticFields`, so a custom field arriving afterwards reclaims it.) -/
theorem getCustomFields_standard_reclaims_name (pre post : List FieldDef)
    (std : FieldDef) (hstd : std.custom = false)
    (hpost : ∀ f ∈ post, f.custom = true → goToLower f.name ≠ goToLower std.name) :
    mapLookup (GetCustomFields (pre ++ std :: post)) (goToLower std.name) = none := by
  unfold GetCustomFields
  rw [List.foldl_append, List.foldl_cons]
  exact foldl_processField_keeps_none post _ (goToLower std.name) hpost
    (processField_standard_clears _ std hstd)

/-- Witness for `getCustomFields_standard_reclaims_name` at the spec's
concrete case: a custom `Severity` followed by the standard `Severity`
leaves no catalog entry for `"severity"`. -/
theorem getCustomFields_standard_reclaims_name_witness :
    mapLookup (GetCustomFields
      [⟨"Severity", "CF_10", true⟩, ⟨"Severity", "severity", false⟩])
      "severity" = none := by
  have h := getCustomFields_standard_reclaims_name
    [⟨"Severity", "CF_10", true⟩] [] ⟨"Severity", "severity", false⟩ rfl
    (by intro f hf; cases hf)
  exact h

/-- Counterexample to C1 as stated: in the sequence custom `sev`,
standard `sev`, custom `sev`, the standard field removes the first
custom entry without recording the name, so the second custom field
reclaims it and the resolved catalog maps `"sev"` to the id of a custom
field that shares its lower-cased name with a standard field. -/
theorem getCustomFields_custom_reclaims_after_standard :
    mapLookup (GetCustomFields
      [⟨"sev", "cf1", true⟩, ⟨"sev", "std1", false⟩, ⟨"sev", "cf2", true⟩])
      "sev" = some "cf2" := by decide

/-- C2 (code bug): with two custom fields both named `Severity`, the
duplicate check on line 99 of communicator.go looks up the original-cased
name `"Severity"` while entries are stored under the lower-cased name,
so it never fires and the LAST custom field wins, contradicting the
first-seen-custom-wins contract; with already-lower-cased names the
check fires and the first one wins. -/
theorem getCustomFields_last_custom_wins_mixed_case :
    mapLookup (GetCustomFields
      [⟨"Severity", "CF1", true⟩, ⟨"Severity", "CF2", true⟩])
      "severity" = some "cf2" ∧
    mapLookup (GetCustomFields
      [⟨"severity", "CF1", true⟩, ⟨"severity", "CF2", true⟩])
      "severity" = some "cf1" := by decide

/-- C7: the bug classifier accepts exactly the issue-type strings whose
lower-casing is `"bug"`, `"functional bug"` or `"production issue"`; in
particular the spec's concrete instances classify as stated. -/
theorem isBug_case_insensitive_members :
    (∀ s, IsBug s = true ↔
      (goToLower s = "bug" ∨ goToLower s = "functional bug" ∨
        goToLower s = "production issue")) ∧
    IsBug "Bug" = true ∧ IsBug "FUNCTIONAL Bug" = true ∧
    IsBug "Production Issue" = true ∧ IsBug "bUg" = true ∧
    IsBug "Story" = false ∧ IsBug "Task" = false := by
  refine ⟨fun s => ?_, by decide, by decide, by decide, by decide,
    by decide, by decide⟩
  simp [IsBug, or_assoc]

/-- C4: when the issue has no `"fields"` member at all, or its `"fields"`
object lacks the requested field name as a key, `GetValueFromField`
returns exactly `"N/A"`. -/
theorem getValueFromField_absent_na (issue : List (String × Json))
    (field : String)
    (h : mapLookup issue "fields" = none ∨
      ∃ fieldsMap, mapLookup issue "fields" = some (Json.obj fieldsMap) ∧
        mapLookup fieldsMap field = none) :
    GetValueFromField issue field = some "N/A" := by
  unfold GetValueFromField
  rcases h with h | ⟨fieldsMap, h1, h2⟩
  · rw [h]
  · rw [h1]
    simp only []
    rw [h2]

/-- Witness for `getValueFromField_absent_na`: an issue with no
`"fields"` member and an issue whose `"fields"` object lacks the key. -/
theorem getValueFromField_absent_na_witness :
    GetValueFromField [] "priority" = some "N/A" ∧
    GetValueFromField [("fields", Json.obj [("summary", Json.str "s")])]
      "priority" = some "N/A" :=
  ⟨getValueFromField_absent_na [] "priority" (Or.inl rfl),
   getValueFromField_absent_na _ "priority"
    (Or.inr ⟨[("summary", Json.str "s")], rfl, rfl⟩)⟩


/-- C5 (amended): for the field name `"created"` (case-insensitively)
with a present string raw value, extraction never fails: the parse error
of `time.Parse` is discarded (`dateVal, _ :=` on line 232), so a string
that does not parse formats the zero time and yields `"01/Jan/01"`,
while a string that parses is re-rendered as `DD/Mon/YY`. -/
theorem getValueFromField_created_formats (issue : List (String × Json))
    (fieldsMap : List (String × Json)) (field s : String)
    (h1 : mapLookup issue "fields" = some (Json.obj fieldsMap))
    (h2 : goToLower field = "created")
    (h3 : mapLookup fieldsMap field = some (Json.str s)) :
    GetValueFromField issue field =
      some (formatDDMonYY ((parseJiraTime s).getD zeroDate)) := by
  unfold GetValueFromField
  rw [h1]
  simp only []
  rw [h3]
  simp only []
  rw [if_pos h2]

/-- Witness for `getValueFromField_created_formats`: the spec's example
timestamp renders as `"05/Mar/23"`; so do the variants Go's parser also
accepts (fraction omitted, four-digit fraction, one-digit hour); an
unparsable value renders the zero time as `"01/Jan/01"`. -/
theorem getValueFromField_created_formats_witness :
    GetValueFromField
      [("fields", Json.obj
        [("created", Json.str "2023-03-05T10:15:30.000+0000")])]
      "created" = some "05/Mar/23" ∧
    GetValueFromField
      [("fields", Json.obj
        [("created", Json.str "2023-03-05T10:15:30+0000")])]
      "created" = some "05/Mar/23" ∧
    GetValueFromField
      [("fields", Json.obj
        [("created", Json.str "2023-03-05T10:15:30.1234+0000")])]
      "created" = some "05/Mar/23" ∧
    GetValueFromField
      [("fields", Json.obj
        [("created", Json.str "2023-03-05T9:15:30.000+0000")])]
      "created" = some "05/Mar/23" ∧
    GetValueFromField
      [("fields", Json.obj [("created", Json.str "not-a-timestamp")])]
      "created" = some "01/Jan/01" :=
  ⟨(getValueFromField_created_formats
      [("fields", Json.obj
        [("created", Json.str "2023-03-05T10:15:30.000+0000")])]
      [("created", Json.str "2023-03-05T10:15:30.000+0000")]
      "created" "2023-03-05T10:15:30.000+0000" rfl rfl rfl).trans (by decide),
   (getValueFromField_created_formats
      [("fields", Json.obj
        [("created", Json.str "2023-03-05T10:15:30+0000")])]
      [("created", Json.str "2023-03-05T10:15:30+0000")]
      "created" "2023-03-05T10:15:30+0000" rfl rfl rfl).trans (by decide),
   (getValueFromField_created_formats
      [("fields", Json.obj
        [("created", Json.str "2023-03-05T10:15:30.1234+0000")])]
      [("created", Json.str "2023-03-05T10:15:30.1234+0000")]
      "created" "2023-03-05T10:15:30.1234+0000" rfl rfl rfl).trans (by decide),
   (getValueFromField_created_formats
      [("fields", Json.obj
        [("created", Json.str "2023-03-05T9:15:30.000+0000")])]
      [("created", Json.str "2023-03-05T9:15:30.000+0000")]
      "created" "2023-03-05T9:15:30.000+0000" rfl rfl rfl).trans (by decide),
   (getValueFromField_created_formats
      [("fields", Json.obj [("created", Json.str "not-a-timestamp")])]
      [("created", Json.str "not-a-timestamp")]
      "created" "not-a-timestamp" rfl rfl rfl).trans (by decide)⟩

/-- Counterexample to C5 as stated: on the raw value `"garbage"`, which
does not parse as the fixed-format timestamp, extraction does not fail —
it returns the string `"01/Jan/01"` (the zero time formatted), because
the parse error is discarded. -/
theorem getValueFromField_created_no_fatal :
    GetValueFromField [("fields", Json.obj [("created", Json.str "garbage")])]
      "created" = some "01/Jan/01" := by decide

/-- C10 (amended): for a field name other than `"created"`
(case-insensitively), when the requested field is present with an object
value lacking the selected nested key, `GetValueFromField` returns the
empty string (the `ok = false` path of `GetValue` leaves `result`
empty), not `"N/A"`. -/
theorem getValueFromField_object_missing_nested (issue : List (String × Json))
    (fieldsMap nested : List (String × Json)) (field : String)
    (h0 : goToLower field ≠ "created")
    (h1 : mapLookup issue "fields" = some (Json.obj fieldsMap))
    (h2 : mapLookup fieldsMap field = some (Json.obj nested))
    (h3 : mapLookup nested (GetNestedMapKeyName field) = none) :
    GetValueFromField issue field = some "" := by
  unfold GetValueFromField
  rw [h1]
  simp only []
  rw [h2]
  simp only []
  rw [if_neg h0]
  unfold GetValue
  simp only []
  rw [h3]
  decide

/-- Witness for `getValueFromField_object_missing_nested`: a `status`
value that is an object without a `"name"` member extracts to `""`. -/
theorem getValueFromField_object_missing_nested_witness :
    GetValueFromField
      [("fields", Json.obj [("status", Json.obj [("self", Json.str "x")])])]
      "status" = some "" :=
  getValueFromField_object_missing_nested
    [("fields", Json.obj [("status", Json.obj [("self", Json.str "x")])])]
    [("status", Json.obj [("self", Json.str "x")])] [("self", Json.str "x")]
    "status" (by decide) rfl rfl rfl

/-- Counterexample to C10 as stated: for the field name `"created"`,
whose selected nested key is `"value"`, an object raw value takes the
date branch instead, where the forced `val.(string)` assertion panics —
extraction neither returns `""` nor any string. -/
theorem getValueFromField_created_object_panics :
    GetNestedMapKeyName "created" = "value" ∧
    GetValueFromField [("fields", Json.obj [("created", Json.obj [])])]
      "created" = none := by decide

/-- Counterexample to C3 as stated: the extractor is not total on the
shapes the claim lists.  A non-object `"fields"` member, an empty-array
field value, an array of non-objects, and a non-string nested member all
panic on a forced type assertion instead of returning a string. -/
theorem getValueFromField_panics_on_malformed :
    GetValueFromField [("fields", Json.str "oops")] "summary" = none ∧
    GetValueFromField [("fields", Json.obj [("labels", Json.arr [])])]
      "labels" = none ∧
    GetValueFromField
      [("fields", Json.obj [("labels", Json.arr [Json.str "x"])])]
      "labels" = none ∧
    GetValueFromField
      [("fields", Json.obj [("assignee", Json.obj [("displayName", Json.num 3)])])]
      "assignee" = none := by decide

theorem getValue_isSome_on_shape (v : Json) (field : String)
    (h : shapeOKVal v field = true) : (GetValue v field).isSome = true := by
  unfold shapeOKVal at h
  unfold GetValue
  cases v with
  | arr xs =>
    simp only [] at h ⊢
    cases xs with
    | nil => simp at h
    | cons hd rest =>
      cases hd with
      | obj m =>
        simp only [] at h ⊢
        cases hv : mapLookup m "value" with
        | none => rw [hv] at h; exact Bool.noConfusion h
        | some t => cases t <;> simp_all
      | null => simp at h
      | bool b => simp at h
      | num n => simp at h
      | str s => simp at h
      | arr ys => simp at h
  | obj m =>
    simp only [] at h ⊢
    cases hv : mapLookup m (GetNestedMapKeyName field) with
    | none => rfl
    | some t => cases t <;> simp_all
  | null => rfl
  | str s => rfl
  | bool b => cases b <;> rfl
  | num n => rfl

/-- C3 (amended): `GetValueFromField` returns `"N/A"` when the issue
lacks the `"fields"` member or the requested key, and it is total —
returns a string — on every issue satisfying `shapeOK` (object
`"fields"`; a present raw value that is a string for `"created"`, an
array whose first element is an object with a string `"value"` member,
an object whose selected nested key is absent or string-valued, or a
scalar/null).  Outside `shapeOK` a forced type assertion can panic, as
`getValueFromField_panics_on_malformed` shows. -/
theorem getValueFromField_total_on_shape (issue : List (String × Json))
    (field : String) (h : shapeOK issue field = true) :
    (GetValueFromField issue field).isSome = true := by
  unfold shapeOK at h
  unfold GetValueFromField
  cases hf : mapLookup issue "fields" with
  | none => rfl
  | some v =>
    rw [hf] at h
    simp only [] at h ⊢
    cases v with
    | obj fieldsMap =>
      simp only [] at h ⊢
      cases hv : mapLookup fieldsMap field with
      | none => rfl
      | some w =>
        rw [hv] at h
        simp only [] at h ⊢
        by_cases hcr : goToLower field = "created"
        · rw [if_pos hcr] at h ⊢
          cases w <;> simp_all
        · rw [if_neg hcr] at h ⊢
          have hs := getValue_isSome_on_shape w field h
          cases hg : GetValue w field with
          | none => rw [hg] at hs; exact Bool.noConfusion hs
          | some r => rfl
    | null => exact Bool.noConfusion h
    | bool b => exact Bool.noConfusion h
    | num n => exact Bool.noConfusion h
    | str s => exact Bool.noConfusion h
    | arr xs => exact Bool.noConfusion h

/-- Witness for `getValueFromField_total_on_shape`: a well-shaped
multi-select (array) value satisfies `shapeOK` and extracts to a
string. -/
theorem getValueFromField_total_on_shape_witness :
    shapeOK [("fields", Json.obj
      [("customfield_1", Json.arr [Json.obj [("value", Json.str "Option A")]])])]
      "customfield_1" = true ∧
    (GetValueFromField [("fields", Json.obj
      [("customfield_1", Json.arr [Json.obj [("value", Json.str "Option A")]])])]
      "customfield_1").isSome = true :=
  ⟨by decide, getValueFromField_total_on_shape _ "customfield_1" (by decide)⟩

theorem findMatch_encode (l : List HistoryItem) :
    findMatch (l.map encodeItem) = some (l.any itemMatches) := by
  induction l with
  | nil => rfl
  | cons it rest ih =>
    cases hT : it.toTarget with
    | none =>
      simp only [List.map_cons, findMatch, encodeItem, hT, List.any_cons,
        itemMatches]
      have h1 : ((none : Option String) == some "In Development") = false := rfl
      rw [h1]
      simp [mapLookup, ih]
    | some s =>
      simp only [List.map_cons, findMatch, encodeItem, hT, List.any_cons,
        itemMatches]
      by_cases hs : s = "In Development"
      · subst hs
        simp [mapLookup]
      · have h1 : (some s == some "In Development") = false := by
          simp only [Option.some_beq_some]
          exact beq_eq_false_iff_ne.mpr hs
        rw [h1]
        simp [mapLookup, hs, ih]


theorem devLoop_encode (l : List HistoryEntry) :
    devLoop (l.map encodeEntry) = some (firstMatchNonEmptyAuthor l) := by
  induction l with
  | nil => rfl
  | cons e rest ih =>
    have step : devLoop (encodeEntry e :: rest.map encodeEntry) =
        (if e.items.any itemMatches then
          (if e.authorName = "" then devLoop (rest.map encodeEntry)
           else some e.authorName)
         else devLoop (rest.map encodeEntry)) := by
      have base : devLoop (encodeEntry e :: rest.map encodeEntry) =
          (match findMatch (e.items.map encodeItem) with
           | some true =>
             if e.authorName = "" then devLoop (rest.map encodeEntry)
             else some e.authorName
           | some false => devLoop (rest.map encodeEntry)
           | none => none) := rfl
      rw [base, findMatch_encode]
      cases e.items.any itemMatches
      · rfl
      · rfl
    rw [List.map_cons, step]
    simp only [firstMatchNonEmptyAuthor]
    by_cases hA : e.items.any itemMatches
    · rw [if_pos hA, if_pos hA]
      by_cases hE : e.authorName = ""
      · rw [if_pos hE, if_pos hE, ih]
      · rw [if_neg hE, if_neg hE]
    · rw [if_neg hA, if_neg hA, ih]

/-- C6 (amended): the developer-of-record scan returns the author display
name of the first entry, in given order, that contains an item whose
`toString` transition target equals `"In Development"` AND whose author
display name is non-empty; if no entry has both, it returns the empty
string.  (The outer loop breaks only on a non-empty name, so a matching
entry with an empty author display name does not stop the scan.) -/
theorem getDeveloperNameFromLog_first_nonempty (l : List HistoryEntry) :
    GetDeveloperNameFromLog (encodeChangeLog l) =
      some (firstMatchNonEmptyAuthor l) := by
  have base : GetDeveloperNameFromLog (encodeChangeLog l) =
      devLoop (l.map encodeEntry) := rfl
  rw [base]
  exact devLoop_encode l

/-- Counterexample to C6 as stated: in `exHist` the FIRST entry with a
matching item has the empty author display name, so the claim's value is
`""`, but the code keeps scanning and returns the second matching
entry's author `"Alice"`. -/
theorem getDeveloperNameFromLog_skips_empty_author :
    firstMatchAuthorSpec exHist = "" ∧
    GetDeveloperNameFromLog (encodeChangeLog exHist) = some "Alice" :=
  ⟨rfl, rfl⟩

theorem subTaskLoop_count (env : FetchEnv) (l : List Json) (ss : List SubTask)
    (k : Nat) (h : subTaskLoop env l = some (ss, k)) : k = l.length := by
  induction l generalizing ss k with
  | nil =>
    unfold subTaskLoop at h
    rw [Option.some.injEq, Prod.mk.injEq] at h
    simp only [List.length_nil]
    omega
  | cons st rest ih =>
    unfold subTaskLoop at h
    split at h <;> try exact Option.noConfusion h
    split at h <;> try exact Option.noConfusion h
    split at h <;> try exact Option.noConfusion h
    split at h <;> try exact Option.noConfusion h
    rename_i ss' k' hloop
    rw [Option.some.injEq, Prod.mk.injEq] at h
    have hk := ih ss' k' hloop
    simp only [List.length_cons]
    omega

theorem getSubTasksForIssue_characterization (env : FetchEnv)
    (issue : JiraIssue) (icl : Bool) (res : JiraIssue) (k : Nat)
    (h : GetSubTasksForIssue env issue icl = some (res, k)) :
    ∃ issueId fieldsMap subTasks result k' ptype,
      mapLookup issue.Data "id" = some (Json.str issueId) ∧
      mapLookup (env issueId icl) "fields" = some (Json.obj fieldsMap) ∧
      mapLookup fieldsMap "subtasks" = some (Json.arr subTasks) ∧
      subTaskLoop env subTasks = some (result, k') ∧
      k = 1 + k' ∧
      GetValueFromField (env issueId icl) "issuetype" = some ptype ∧
      ((IsBug ptype = true ∧
          GetDeveloperNameFromLog (env issueId icl) = some res.AssigneeName ∧
          res = { issue with SubTasks := result,
                             AssigneeName := res.AssigneeName }) ∨
        (IsBug ptype = false ∧ res = { issue with SubTasks := result })) := by
  unfold GetSubTasksForIssue at h
  split at h <;> try exact Option.noConfusion h
  rename_i issueId hid
  split at h <;> try exact Option.noConfusion h
  rename_i fieldsMap hf
  split at h <;> try exact Option.noConfusion h
  rename_i subTasks hs
  split at h <;> try exact Option.noConfusion h
  rename_i result k' hloop
  split at h <;> try exact Option.noConfusion h
  rename_i ptype hpt
  split at h
  · rename_i hb
    split at h <;> try exact Option.noConfusion h
    rename_i dev hdev
    rw [Option.some.injEq, Prod.mk.injEq] at h
    obtain ⟨hres, hk⟩ := h
    subst hres
    subst hk
    exact ⟨issueId, fieldsMap, subTasks, result, k', ptype,
      hid, hf, hs, hloop, rfl, hpt, Or.inl ⟨hb, hdev, rfl⟩⟩
  · rename_i hb
    rw [Option.some.injEq, Prod.mk.injEq] at h
    obtain ⟨hres, hk⟩ := h
    subst hres
    subst hk
    have hb' : IsBug ptype = false := by simpa using hb
    exact ⟨issueId, fieldsMap, subTasks, result, k', ptype,
      hid, hf, hs, hloop, rfl, hpt, Or.inr ⟨hb', rfl⟩⟩

/-- C8: when one aggregation call completes, the output issue's
`AssigneeName` is the developer-of-record scan result of the parent
exactly when the parent's extracted `issuetype` classifies as a bug;
when it does not, `AssigneeName` is exactly the input issue's value. -/
theorem getSubTasksForIssue_assignee_overwritten_iff_bug (env : FetchEnv)
    (issue : JiraIssue) (icl : Bool) (res : JiraIssue) (k : Nat)
    (h : GetSubTasksForIssue env issue icl = some (res, k)) :
    ∃ parent ptype, parentOf env issue icl = some parent ∧
      GetValueFromField parent "issuetype" = some ptype ∧
      ((IsBug ptype = true ∧
          GetDeveloperNameFromLog parent = some res.AssigneeName) ∨
        (IsBug ptype = false ∧ res.AssigneeName = issue.AssigneeName)) := by
  obtain ⟨issueId, fieldsMap, subTasks, result, k', ptype, hid, hf, hs, hloop,
    hk, hpt, hcase⟩ := getSubTasksForIssue_characterization env issue icl res k h
  refine ⟨env issueId icl, ptype, ?_, hpt, ?_⟩
  · unfold parentOf
    rw [hid]
  · rcases hcase with ⟨hb, hdev, hres⟩ | ⟨hb, hres⟩
    · exact Or.inl ⟨hb, hdev⟩
    · refine Or.inr ⟨hb, ?_⟩
      rw [hres]

/-- Witness for `getSubTasksForIssue_assignee_overwritten_iff_bug`: under
`envW` the parent of `issueW` is a `Bug`, so the input assignee `Carol`
is overwritten with the developer of record `Alice`. -/
theorem getSubTasksForIssue_assignee_overwritten_iff_bug_witness :
    ∃ parent ptype, parentOf envW issueW true = some parent ∧
      GetValueFromField parent "issuetype" = some ptype ∧
      ((IsBug ptype = true ∧
          GetDeveloperNameFromLog parent = some outW.AssigneeName) ∨
        (IsBug ptype = false ∧ outW.AssigneeName = issueW.AssigneeName)) :=
  getSubTasksForIssue_assignee_overwritten_iff_bug envW issueW true outW 2 rfl

/-- C9: when one aggregation call completes for a parent listing n
sub-task entries, the shared `totalRestCalls` counter is incremented
exactly 1 + n times: once before the parent fetch and once per sub-task
fetch. -/
theorem getSubTasksForIssue_rest_calls (env : FetchEnv) (issue : JiraIssue)
    (icl : Bool) (res : JiraIssue) (k : Nat)
    (h : GetSubTasksForIssue env issue icl = some (res, k)) :
    ∃ parent fieldsMap subTasks,
      parentOf env issue icl = some parent ∧
      mapLookup parent "fields" = some (Json.obj fieldsMap) ∧
      mapLookup fieldsMap "subtasks" = some (Json.arr subTasks) ∧
      k = 1 + subTasks.length := by
  obtain ⟨issueId, fieldsMap, subTasks, result, k', ptype, hid, hf, hs, hloop,
    hk, hpt, hcase⟩ := getSubTasksForIssue_characterization env issue icl res k h
  refine ⟨env issueId icl, fieldsMap, subTasks, ?_, hf, hs, ?_⟩
  · unfold parentOf
    rw [hid]
  · rw [hk, subTaskLoop_count env subTasks result k' hloop]

/-- Witness for `getSubTasksForIssue_rest_calls`: `parentW` lists one
sub-task, and the aggregation of `issueW` counts 2 = 1 + 1 calls. -/
theorem getSubTasksForIssue_rest_calls_witness :
    ∃ parent fieldsMap subTasks,
      parentOf envW issueW true = some parent ∧
      mapLookup parent "fields" = some (Json.obj fieldsMap) ∧
      mapLookup fieldsMap "subtasks" = some (Json.arr subTasks) ∧
      2 = 1 + subTasks.length :=
  getSubTasksForIssue_rest_calls envW issueW true outW 2 rfl
